import Mathlib

/-!
Verification of the cache/store component of the wiktionary-cli repository
(`src/services/db.py`, class `Database`).

The store is embedded shallowly:

* the sqlite file is a `Store`: the list of `Pages` rows and the list of
  `Searches` rows, kept in rowid order, together with the next auto-assigned
  ids;
* timestamps (`DATETIME('now', 'localtime')`, stored as sortable local-time
  strings and parsed back with `datetime.fromisoformat`) are modelled as
  integers counting seconds, and the current time is passed explicitly to
  every operation that reads the clock;
* the module-level configuration `tools.config` is a `Config` record passed
  explicitly; `DB_PAGE_EXPIRATION_TIME` is the already-parsed number of
  seconds (the duration-string parsing is an external collaborator);
* Python exceptions (`ValueError`, `sqlite3.OperationalError`) become an
  `Except DbError` result; state-changing methods return the new `Store`.
-/

namespace WiktionaryCli

/-- A row of the `Pages` table:
`Pages (id INTEGER PRIMARY KEY, name TEXT UNIQUE, content TEXT, datetime DATETIME)`. -/
structure PageRow where
  id : Nat
  name : String
  content : String
  datetime : Int
deriving Repr, DecidableEq

/-- A row of the `Searches` table:
`Searches (id INTEGER PRIMARY KEY, text TEXT, datetime DATETIME)`. -/
structure SearchRow where
  id : Nat
  text : String
  datetime : Int
deriving Repr, DecidableEq

/-- The sqlite database file owned by `Database`: both tables, in rowid order,
plus the next auto-assigned `INTEGER PRIMARY KEY` value for each table. -/
structure Store where
  pages : List PageRow
  searches : List SearchRow
  nextPageId : Nat
  nextSearchId : Nat
deriving Repr, DecidableEq

/-- The configuration flags of `tools.config` that `Database` reads.
`DB_PAGE_EXPIRATION_TIME` is the value of
`cfg_parser.expiration_time_to_seconds(config.DB_PAGE_EXPIRATION_TIME)`:
the threshold in seconds, parsed by the external config-parsing collaborator. -/
structure Config where
  DB_SAVE_SEARCHES : Bool
  DB_SAVE_PAGES : Bool
  DB_USE_SAVED_PAGES : Bool
  DB_PAGE_EXPIRATION_TIME : Int
deriving Repr, DecidableEq

/-- Modelled from the spec: the parsed page object (class `WikiParser` of
`tools/wikiparser.py`, which is not under `src/`). Spec section 6: "a page
object with at minimum a `title` (string) and `text` (string) field, produced
by an external wiki-markup-parsing collaborator and reconstructable from
`(name, content)` alone". `Database.save_page` reads `page.page_title` and
`page.page_text`, and `Database.load_page` rebuilds the object as
`WikiParser(content, name)`: body text first, then title. -/
structure WikiParser where
  page_text : String
  page_title : String
deriving Repr, DecidableEq

/-- The exceptions the store can raise: Python `ValueError` for an invalid
`limit`, and `sqlite3.OperationalError` for a malformed SQL statement. -/
inductive DbError where
  | valueError
  | operationalError
deriving Repr, DecidableEq

/-- Python `==` between a `list` and `None`. `cursor.fetchall()` always
returns a list (possibly empty), never `None`, and in Python a list never
compares equal to `None`, so this is constantly `false`. -/
def pyListEqNone (_ : List α) : Bool := false

/-- Insert into a list sorted by `le` (insertion step of `ORDER BY`). -/
def insertLe (le : α → α → Bool) (a : α) : List α → List α
  | [] => [a]
  | b :: l => if le a b then a :: b :: l else b :: insertLe le a l

/-- Sort a list by `le`: the semantics of SQL `ORDER BY` on a result set. -/
def sortLe (le : α → α → Bool) : List α → List α
  | [] => []
  | a :: l => insertLe le a (sortLe le l)

namespace Database

/-- `Database.save_search`: if `DB_SAVE_SEARCHES` is `False` do nothing,
otherwise `INSERT INTO Searches (text, datetime) VALUES (?, DATETIME('now', 'localtime'))`. -/
def save_search (cfg : Config) (now : Int) (search : String) (db : Store) : Store :=
  if cfg.DB_SAVE_SEARCHES = false then db
  else
    { db with
      searches := db.searches ++ [⟨db.nextSearchId, search, now⟩]
      nextSearchId := db.nextSearchId + 1 }

/-- `Database.get_saved_pages`.
With `limit == None`: `SELECT P.id, P.name, P.datetime FROM Pages P ORDER BY P.id ASC`,
then the (dead) `pages == None` check.
With `limit <= 0`: `raise ValueError`.
With a positive limit the source runs
`SELECT P.id, S.name FROM Pages P ORDER BY P.id DESC LIMIT ?`, whose column
`S.name` refers to an alias `S` that is bound by no table in the `FROM`
clause, so sqlite rejects the statement: `sqlite3.OperationalError`. -/
def get_saved_pages (db : Store) (limit : Option Int) :
    Except DbError (Option (List (Nat × String × Int))) :=
  match limit with
  | none =>
    let pages :=
      (sortLe (fun a b => a.id ≤ b.id) db.pages).map fun p => (p.id, p.name, p.datetime)
    if pyListEqNone pages then .ok none else .ok (some pages)
  | some l =>
    if l ≤ 0 then .error .valueError
    else .error .operationalError

/-- `Database.get_saved_searches`.
With `limit == None`: `SELECT S.id, S.text, S.datetime FROM Searches S ORDER BY S.id ASC`,
then the (dead) `searches == None` check.
With `limit <= 0`: `raise ValueError`.
Otherwise: `SELECT S.id, S.text, S.datetime FROM Searches S ORDER BY S.id DESC LIMIT ?`. -/
def get_saved_searches (db : Store) (limit : Option Int) :
    Except DbError (Option (List (Nat × String × Int))) :=
  match limit with
  | none =>
    let searches :=
      (sortLe (fun a b => a.id ≤ b.id) db.searches).map fun s => (s.id, s.text, s.datetime)
    if pyListEqNone searches then .ok none else .ok (some searches)
  | some l =>
    if l ≤ 0 then .error .valueError
    else
      let searches :=
        ((sortLe (fun a b => b.id ≤ a.id) db.searches).map
          fun s => (s.id, s.text, s.datetime)).take l.toNat
      if pyListEqNone searches then .ok none else .ok (some searches)

/-- `Database.clear_searches`: `DELETE FROM Searches`. -/
def clear_searches (db : Store) : Store :=
  { db with searches := [] }

/-- `Database.clear_saved_pages`: the source executes `DELETE FROM Searches`
(not `DELETE FROM Pages`), embedded here exactly as written. -/
def clear_saved_pages (db : Store) : Store :=
  { db with searches := [] }

/-- `Database.save_page`: if `DB_SAVE_PAGES` is `False` do nothing. Otherwise
`INSERT INTO Pages (name, content, datetime) VALUES (?, ?, DATETIME('now', 'localtime'))`;
the insert raises `sqlite3.IntegrityError` exactly when the `UNIQUE`
constraint on `name` is violated, i.e. when some row already has this name,
and the handler then runs
`UPDATE Pages SET content = ?, datetime = DATETIME('now', 'localtime') WHERE name = ?`. -/
def save_page (cfg : Config) (now : Int) (page : WikiParser) (db : Store) : Store :=
  if cfg.DB_SAVE_PAGES = false then db
  else
    let page_name := page.page_title
    let page_content := page.page_text
    if db.pages.any (fun p => p.name = page_name) then
      { db with
        pages := db.pages.map fun p =>
          if p.name = page_name then { p with content := page_content, datetime := now } else p }
    else
      { db with
        pages := db.pages ++ [⟨db.nextPageId, page_name, page_content, now⟩]
        nextPageId := db.nextPageId + 1 }

/-- `Database.page_needs_update`: compares
`(datetime.now() - date).seconds` with the parsed expiration threshold.
Python's `timedelta.seconds` attribute is the normalized sub-day seconds
component, `0 <= seconds < 86400`: for a difference of `d` seconds it equals
`d mod 86400` with a floored remainder, which is `Int.emod d 86400`. -/
def page_needs_update (cfg : Config) (now : Int) (date : Int) : Bool :=
  let expiration_time := cfg.DB_PAGE_EXPIRATION_TIME
  let cur_page_archival_time := (now - date).emod 86400
  if cur_page_archival_time > expiration_time then true
  else false

/-- `Database.load_page`: if `DB_USE_SAVED_PAGES` is `False` return `None`;
otherwise `SELECT P.name, P.content, P.datetime FROM Pages P WHERE p.name = ?`
and `fetchone` (the first matching row in rowid order, or `None`); a missing
or stale row gives `None`, otherwise the page is rebuilt as
`WikiParser(content, name)`. The second component is the store after the
call: `load_page` only executes `SELECT`, which leaves both tables as they
were. -/
def load_page (cfg : Config) (now : Int) (page_name : String) (db : Store) :
    Option WikiParser × Store :=
  if cfg.DB_USE_SAVED_PAGES = false then (none, db)
  else
    match (db.pages.filter fun p => p.name = page_name).head? with
    | none => (none, db)
    | some page =>
      if page_needs_update cfg now page.datetime then (none, db)
      else (some ⟨page.content, page.name⟩, db)

end Database

/-- The schema invariant of the `Pages` table: `name TEXT UNIQUE` — at most
one row per distinct name. -/
def pagesNamesUnique (db : Store) : Prop :=
  (db.pages.map PageRow.name).Nodup

instance (db : Store) : Decidable (pagesNamesUnique db) := by
  unfold pagesNamesUnique; infer_instance

/-! ### Helper lemmas -/

lemma mem_insertLe {le : α → α → Bool} {a x : α} {l : List α} :
    a ∈ insertLe le x l ↔ a = x ∨ a ∈ l := by
  induction l with
  | nil => simp [insertLe]
  | cons b l ih =>
    simp only [insertLe]
    split
    · simp
    · simp only [List.mem_cons, ih]
      tauto

lemma mem_sortLe {le : α → α → Bool} {a : α} {l : List α} :
    a ∈ sortLe le l ↔ a ∈ l := by
  induction l with
  | nil => simp [sortLe]
  | cons b l ih => simp [sortLe, mem_insertLe, ih]

lemma filter_name_eq_nil {l : List PageRow} {t : String}
    (h : ∀ p ∈ l, p.name ≠ t) : l.filter (fun p => p.name = t) = [] := by
  rw [List.filter_eq_nil_iff]
  intro p hp
  simp [h p hp]

lemma filter_name_unique {l : List PageRow} (hl : (l.map PageRow.name).Nodup)
    {r : PageRow} (hr : r ∈ l) : l.filter (fun p => p.name = r.name) = [r] := by
  induction l with
  | nil => cases hr
  | cons x xs ih =>
    simp only [List.map_cons, List.nodup_cons] at hl
    obtain ⟨hx, hxs⟩ := hl
    rcases List.mem_cons.mp hr with h | h
    · subst h
      have hnil : xs.filter (fun p => p.name = r.name) = [] :=
        filter_name_eq_nil fun p hp hn => hx (hn ▸ List.mem_map_of_mem PageRow.name hp)
      simp [List.filter_cons, hnil]
    · have hxr : ¬ (x.name = r.name) := fun he =>
        hx (he ▸ List.mem_map_of_mem PageRow.name h)
      simp [List.filter_cons, hxr, ih hxs h]

lemma eq_of_mem_of_name_eq {l : List PageRow} (hl : (l.map PageRow.name).Nodup)
    {r r' : PageRow} (hr : r ∈ l) (hr' : r' ∈ l) (hname : r'.name = r.name) :
    r' = r := by
  have hfilter := filter_name_unique hl hr
  have : r' ∈ l.filter (fun p => p.name = r.name) := by
    simp [List.mem_filter, hr', hname]
  rw [hfilter] at this
  simpa using this

/-- `load_page` only runs `SELECT` statements: the store after the call is the
store before it, in every branch. -/
lemma load_page_state (cfg : Config) (now : Int) (nm : String) (db : Store) :
    (Database.load_page cfg now nm db).2 = db := by
  unfold Database.load_page
  split
  · rfl
  · split
    · rfl
    · split <;> rfl

/-- The row-updating function of the `UPDATE ... WHERE name = ?` branch of
`save_page` does not change any row's name. -/
lemma update_preserves_name (t : String) (c : String) (now : Int) (p : PageRow) :
    ((fun p : PageRow =>
      if p.name = t then { p with content := c, datetime := now } else p) p).name
      = p.name := by
  by_cases h : p.name = t <;> simp [h]

lemma save_page_names_unique (cfg : Config) (now : Int) (P : WikiParser) {db : Store}
    (hinv : pagesNamesUnique db) :
    pagesNamesUnique (Database.save_page cfg now P db) := by
  cases hb : cfg.DB_SAVE_PAGES
  · unfold Database.save_page
    rw [hb]
    simpa using hinv
  · unfold Database.save_page
    rw [hb]
    simp only [Bool.true_eq_false, if_false]
    by_cases hany : (db.pages.any fun p => decide (p.name = P.page_title)) = true
    · rw [if_pos hany]
      unfold pagesNamesUnique at *
      simpa [List.map_map, Function.comp_def, apply_ite PageRow.name] using hinv
    · rw [if_neg hany]
      unfold pagesNamesUnique at *
      have hany' : ∀ p ∈ db.pages, p.name ≠ P.page_title := by
        simp only [List.any_eq_true, decide_eq_true_eq] at hany
        push_neg at hany
        exact hany
      have hnot : P.page_title ∉ db.pages.map PageRow.name := by
        simp only [List.mem_map]
        rintro ⟨p, hp, hn⟩
        exact hany' p hp hn
      simp [List.nodup_append, hinv, hnot]

/-- What `save_page` (with `DB_SAVE_PAGES` enabled, on a store satisfying the
name-uniqueness schema invariant) leaves in the `Pages` table under the saved
name: exactly one row, holding the page's text and the save time; its id is
the old row's id when the name was present, and the fresh id otherwise. -/
lemma save_page_filter (cfg : Config) (now : Int) (P : WikiParser) (db : Store)
    (hs : cfg.DB_SAVE_PAGES = true) (hinv : pagesNamesUnique db) :
    (∃ r ∈ db.pages, r.name = P.page_title ∧
      (Database.save_page cfg now P db).pages.filter (fun p => p.name = P.page_title)
        = [{ r with content := P.page_text, datetime := now }]) ∨
    ((∀ p ∈ db.pages, p.name ≠ P.page_title) ∧
      (Database.save_page cfg now P db).pages.filter (fun p => p.name = P.page_title)
        = [⟨db.nextPageId, P.page_title, P.page_text, now⟩]) := by
  unfold Database.save_page
  rw [hs]
  simp only [Bool.true_eq_false, if_false]
  by_cases hany : db.pages.any (fun p => p.name = P.page_title)
  · left
    simp only [List.any_eq_true, decide_eq_true_eq] at hany
    obtain ⟨r, hr, hrname⟩ := hany
    refine ⟨r, hr, hrname, ?_⟩
    rw [if_pos]
    · simp only []
      rw [List.filter_map]
      have hpred : db.pages.filter
          ((fun p : PageRow => decide (p.name = P.page_title)) ∘
            (fun p : PageRow =>
              if p.name = P.page_title then { p with content := P.page_text, datetime := now }
              else p))
          = db.pages.filter (fun p => p.name = P.page_title) := by
        apply List.filter_congr
        intro p _
        simp [Function.comp, update_preserves_name P.page_title P.page_text now p]
      rw [hpred, ← hrname, filter_name_unique hinv hr, hrname]
      simp [hrname]
    · simp only [List.any_eq_true, decide_eq_true_eq]
      exact ⟨r, hr, hrname⟩
  · right
    simp only [List.any_eq_true, decide_eq_true_eq] at hany
    push_neg at hany
    refine ⟨hany, ?_⟩
    rw [if_neg]
    · simp only []
      rw [List.filter_append, filter_name_eq_nil hany]
      simp
    · simp only [List.any_eq_true, decide_eq_true_eq]
      push_neg
      exact hany

/-- For a nonnegative difference, the Python `timedelta.seconds` component is
at most the full difference in seconds. -/
lemma emod_day_le {a : Int} (ha : 0 ≤ a) : a.emod 86400 ≤ a := by
  show a % 86400 ≤ a
  rcases lt_or_le a 86400 with h | h
  · rw [Int.emod_eq_of_lt ha h]
  · exact le_trans (le_of_lt (Int.emod_lt_of_pos a (by norm_num))) h

lemma save_search_pages (cfg : Config) (now : Int) (s : String) (db : Store) :
    (Database.save_search cfg now s db).pages = db.pages := by
  unfold Database.save_search
  split <;> rfl

lemma pagesNamesUnique_of_pages_eq {db db' : Store} (h : db'.pages = db.pages)
    (hinv : pagesNamesUnique db) : pagesNamesUnique db' := by
  unfold pagesNamesUnique at *
  rw [h]
  exact hinv

/-! ### Claims -/

/-- C2: on a store holding one page and one search, `clear_saved_pages` leaves
the `Pages` table untouched and empties `Searches` (it executes
`DELETE FROM Searches`), while `clear_searches` also empties `Searches`: the
code contradicts the claim that each clear operation removes exactly the
records of its own kind. -/
theorem C2_clear_saved_pages_bug :
    (Database.clear_saved_pages ⟨[⟨1, "A", "a", 0⟩], [⟨1, "q", 0⟩], 2, 2⟩).pages
        = [⟨1, "A", "a", 0⟩] ∧
    (Database.clear_saved_pages ⟨[⟨1, "A", "a", 0⟩], [⟨1, "q", 0⟩], 2, 2⟩).searches = [] ∧
    (Database.clear_searches ⟨[⟨1, "A", "a", 0⟩], [⟨1, "q", 0⟩], 2, 2⟩).searches = [] ∧
    (Database.clear_searches ⟨[⟨1, "A", "a", 0⟩], [⟨1, "q", 0⟩], 2, 2⟩).pages
        = [⟨1, "A", "a", 0⟩] :=
  ⟨rfl, rfl, rfl, rfl⟩

/-- C3: `page_needs_update` compares the Python `timedelta.seconds` attribute
(the sub-day component, `(now - saved_at) mod 86400`) with the threshold, not
the full difference: a page whose age is 90000 s (25 h) with a 7200 s (2 h)
threshold is reported fresh, although its age exceeds the threshold. -/
theorem C3_staleness_wraps_at_one_day :
    Database.page_needs_update ⟨true, true, true, 7200⟩ 90000 0 = false ∧
    (90000 : Int) - 0 > 7200 := by
  exact ⟨by decide, by decide⟩

/-- C4: with no limit, `get_saved_pages` and `get_saved_searches` return all
rows ascending by id, and `get_saved_searches` with a limit returns the newest
rows descending by id — but `get_saved_pages` with a positive limit raises
`sqlite3.OperationalError` (its query names the unbound alias `S`), instead of
returning the most recent pages. -/
theorem C4_limited_pages_query_error :
    Database.get_saved_pages
        ⟨[⟨1, "A", "a", 10⟩, ⟨2, "B", "b", 20⟩, ⟨3, "C", "c", 30⟩], [], 4, 1⟩ none
      = .ok (some [(1, "A", 10), (2, "B", 20), (3, "C", 30)]) ∧
    Database.get_saved_pages
        ⟨[⟨1, "A", "a", 10⟩, ⟨2, "B", "b", 20⟩, ⟨3, "C", "c", 30⟩], [], 4, 1⟩ (some 2)
      = .error .operationalError ∧
    Database.get_saved_searches
        ⟨[], [⟨1, "x", 10⟩, ⟨2, "y", 20⟩, ⟨3, "z", 30⟩], 1, 4⟩ none
      = .ok (some [(1, "x", 10), (2, "y", 20), (3, "z", 30)]) ∧
    Database.get_saved_searches
        ⟨[], [⟨1, "x", 10⟩, ⟨2, "y", 20⟩, ⟨3, "z", 30⟩], 1, 4⟩ (some 2)
      = .ok (some [(3, "z", 30), (2, "y", 20)]) :=
  ⟨rfl, rfl, rfl, rfl⟩

/-- C5: a non-positive `limit` makes `get_saved_pages` and
`get_saved_searches` raise `ValueError`, whatever the store holds (the error
is raised before any query runs), while an omitted limit succeeds. -/
theorem C5_invalid_limit (db : Store) (k : Int) (hk : k ≤ 0) :
    Database.get_saved_pages db (some k) = .error .valueError ∧
    Database.get_saved_searches db (some k) = .error .valueError ∧
    (∃ res, Database.get_saved_pages db none = .ok (some res)) ∧
    (∃ res, Database.get_saved_searches db none = .ok (some res)) := by
  refine ⟨?_, ?_, ?_, ?_⟩
  · simp [Database.get_saved_pages, hk]
  · simp [Database.get_saved_searches, hk]
  · exact ⟨(sortLe (fun a b => a.id ≤ b.id) db.pages).map (fun p => (p.id, p.name, p.datetime)),
      by simp [Database.get_saved_pages, pyListEqNone]⟩
  · exact ⟨(sortLe (fun a b => a.id ≤ b.id) db.searches).map (fun s => (s.id, s.text, s.datetime)),
      by simp [Database.get_saved_searches, pyListEqNone]⟩

/-- Witness for C5 at `limit = 0` on the empty store. -/
theorem C5_invalid_limit_witness :
    Database.get_saved_pages ⟨[], [], 1, 1⟩ (some 0) = .error .valueError ∧
    Database.get_saved_searches ⟨[], [], 1, 1⟩ (some 0) = .error .valueError ∧
    (∃ res, Database.get_saved_pages ⟨[], [], 1, 1⟩ none = .ok (some res)) ∧
    (∃ res, Database.get_saved_searches ⟨[], [], 1, 1⟩ none = .ok (some res)) :=
  C5_invalid_limit ⟨[], [], 1, 1⟩ 0 (by decide)

/-- C8: `load_page` never modifies the store — whether the page is found,
missing, or stale, both tables are exactly what they were before the call. -/
theorem C8_load_page_frame (cfg : Config) (now : Int) (nm : String) (db : Store) :
    (Database.load_page cfg now nm db).2 = db ∧
    (Database.load_page cfg now nm db).2.pages = db.pages ∧
    (Database.load_page cfg now nm db).2.searches = db.searches := by
  have h := load_page_state cfg now nm db
  exact ⟨h, by rw [h], by rw [h]⟩

/-- C9: with no limit, an empty store yields `.ok (some [])` — the empty
list — and for no store does either getter return the `None` sentinel of the
dead `== None` branch, since `fetchall` always yields a list. -/
theorem C9_empty_store_fetch (db : Store) (hp : db.pages = []) (hs : db.searches = []) :
    Database.get_saved_pages db none = .ok (some []) ∧
    Database.get_saved_searches db none = .ok (some []) ∧
    (∀ db2 : Store, Database.get_saved_pages db2 none ≠ .ok none ∧
      Database.get_saved_searches db2 none ≠ .ok none) := by
  refine ⟨?_, ?_, fun db2 => ⟨?_, ?_⟩⟩
  · simp [Database.get_saved_pages, hp, sortLe, pyListEqNone]
  · simp [Database.get_saved_searches, hs, sortLe, pyListEqNone]
  · simp [Database.get_saved_pages, pyListEqNone]
  · simp [Database.get_saved_searches, pyListEqNone]

/-- Witness for C9 on the concrete empty store. -/
theorem C9_empty_store_fetch_witness :
    Database.get_saved_pages ⟨[], [], 1, 1⟩ none = .ok (some []) ∧
    Database.get_saved_searches ⟨[], [], 1, 1⟩ none = .ok (some []) :=
  ⟨(C9_empty_store_fetch ⟨[], [], 1, 1⟩ rfl rfl).1,
   (C9_empty_store_fetch ⟨[], [], 1, 1⟩ rfl rfl).2.1⟩

/-- C1: with `DB_SAVE_PAGES` enabled, on a store satisfying the schema
invariant (at most one `Pages` row per distinct name), `save_page` leaves at
most one row under the page's title; if a row with that name existed, the
table afterwards holds exactly that row with its id and name unchanged and
its content and timestamp replaced by the page's; and the invariant is
preserved by `save_page`, `save_search`, `clear_searches`,
`clear_saved_pages` and `load_page`. -/
theorem C1_save_page_upsert (cfg : Config) (db : Store) (P : WikiParser) (now : Int)
    (hs : cfg.DB_SAVE_PAGES = true) (hinv : pagesNamesUnique db) :
    pagesNamesUnique (Database.save_page cfg now P db) ∧
    ((Database.save_page cfg now P db).pages.filter
        (fun p => p.name = P.page_title)).length ≤ 1 ∧
    (∀ r ∈ db.pages, r.name = P.page_title →
      (Database.save_page cfg now P db).pages.filter (fun p => p.name = P.page_title)
        = [{ r with content := P.page_text, datetime := now }]) ∧
    (∀ (cfg2 : Config) (now2 : Int) (s nm : String),
      pagesNamesUnique (Database.save_search cfg2 now2 s db) ∧
      pagesNamesUnique (Database.clear_searches db) ∧
      pagesNamesUnique (Database.clear_saved_pages db) ∧
      pagesNamesUnique (Database.load_page cfg2 now2 nm db).2 ∧
      pagesNamesUnique (Database.save_page cfg2 now2 P db)) := by
  have hinv' : (db.pages.map PageRow.name).Nodup := hinv
  refine ⟨save_page_names_unique cfg now P hinv, ?_, ?_, ?_⟩
  · rcases save_page_filter cfg now P db hs hinv with ⟨r, _, _, hf⟩ | ⟨_, hf⟩ <;>
      simp [hf]
  · intro r hr hrn
    rcases save_page_filter cfg now P db hs hinv with ⟨r', hr', hrn', hf⟩ | ⟨hnone, hf⟩
    · have heq : r = r' := eq_of_mem_of_name_eq hinv' hr' hr (hrn.trans hrn'.symm)
      rw [hf, heq]
    · exact absurd hrn (hnone r hr)
  · intro cfg2 now2 s nm
    refine ⟨?_, hinv, hinv, ?_, save_page_names_unique cfg2 now2 P hinv⟩
    · exact pagesNamesUnique_of_pages_eq (save_search_pages cfg2 now2 s db) hinv
    · rw [load_page_state]
      exact hinv

/-- Witness for C1: overwriting the single saved page named `T`. -/
theorem C1_save_page_upsert_witness :
    (Database.save_page ⟨true, true, true, 100⟩ 5 ⟨"new", "T"⟩
        ⟨[⟨1, "T", "old", 0⟩], [], 2, 1⟩).pages.filter (fun p => p.name = "T")
      = [⟨1, "T", "new", 5⟩] :=
  (C1_save_page_upsert ⟨true, true, true, 100⟩ ⟨[⟨1, "T", "old", 0⟩], [], 2, 1⟩
      ⟨"new", "T"⟩ 5 rfl (by decide)).2.2.1
    ⟨1, "T", "old", 0⟩ (List.mem_singleton.mpr rfl) rfl

/-- C6: with `DB_SAVE_PAGES` disabled, `save_page` leaves the store unchanged,
so loading the page's title afterwards (reads enabled, the name not already
stored) yields "not found"; and with `DB_USE_SAVED_PAGES` disabled,
`load_page` returns "not found" for every name and store, leaving the store
untouched. -/
theorem C6_toggle_gating (cfg cfgL : Config) (db : Store) (P : WikiParser) (t1 t2 : Int)
    (hs : cfg.DB_SAVE_PAGES = false) (hu : cfgL.DB_USE_SAVED_PAGES = true) :
    Database.save_page cfg t1 P db = db ∧
    ((∀ r ∈ db.pages, r.name ≠ P.page_title) →
      (Database.load_page cfgL t2 P.page_title (Database.save_page cfg t1 P db)).1 = none) ∧
    (∀ cfg2 : Config, cfg2.DB_USE_SAVED_PAGES = false →
      ∀ (t3 : Int) (nm : String) (db2 : Store),
        Database.load_page cfg2 t3 nm db2 = (none, db2)) := by
  have hsp : Database.save_page cfg t1 P db = db := by
    unfold Database.save_page
    rw [hs]
    simp
  refine ⟨hsp, ?_, ?_⟩
  · intro hnone
    rw [hsp]
    unfold Database.load_page
    rw [hu]
    simp only [Bool.true_eq_false, if_false]
    rw [filter_name_eq_nil hnone]
    rfl
  · intro cfg2 h2 t3 nm db2
    unfold Database.load_page
    rw [h2]
    simp

/-- Witness for C6: a disabled write makes the page unloadable; a disabled
read hides an existing saved row. -/
theorem C6_toggle_gating_witness :
    Database.save_page ⟨true, false, true, 100⟩ 0 ⟨"t", "T"⟩ ⟨[], [], 1, 1⟩ = ⟨[], [], 1, 1⟩ ∧
    (Database.load_page ⟨true, true, true, 100⟩ 1 "T"
        (Database.save_page ⟨true, false, true, 100⟩ 0 ⟨"t", "T"⟩ ⟨[], [], 1, 1⟩)).1 = none ∧
    Database.load_page ⟨true, true, false, 100⟩ 2 "T" ⟨[⟨1, "T", "t", 0⟩], [], 2, 1⟩
      = (none, ⟨[⟨1, "T", "t", 0⟩], [], 2, 1⟩) := by
  have h := C6_toggle_gating ⟨true, false, true, 100⟩ ⟨true, true, true, 100⟩
    ⟨[], [], 1, 1⟩ ⟨"t", "T"⟩ 0 1 rfl rfl
  exact ⟨h.1, h.2.1 (by simp),
    h.2.2 ⟨true, true, false, 100⟩ rfl 2 "T" ⟨[⟨1, "T", "t", 0⟩], [], 2, 1⟩⟩

/-- C7: with both toggles enabled, on a store satisfying the schema invariant,
saving a page and loading its title within the expiration window (age between
0 and the threshold) returns exactly the saved page object, rebuilt from the
stored name and content. -/
theorem C7_round_trip (cfg : Config) (db : Store) (P : WikiParser) (t1 t2 : Int)
    (hs : cfg.DB_SAVE_PAGES = true) (hu : cfg.DB_USE_SAVED_PAGES = true)
    (hinv : pagesNamesUnique db) (h0 : 0 ≤ t2 - t1)
    (hw : t2 - t1 ≤ cfg.DB_PAGE_EXPIRATION_TIME) :
    (Database.load_page cfg t2 P.page_title (Database.save_page cfg t1 P db)).1 = some P := by
  have hrow : ∃ row : PageRow,
      (Database.save_page cfg t1 P db).pages.filter (fun p => p.name = P.page_title) = [row] ∧
      row.name = P.page_title ∧ row.content = P.page_text ∧ row.datetime = t1 := by
    rcases save_page_filter cfg t1 P db hs hinv with ⟨r, _, hrn, hf⟩ | ⟨_, hf⟩
    · exact ⟨_, hf, by simp [hrn], rfl, rfl⟩
    · exact ⟨_, hf, rfl, rfl, rfl⟩
  obtain ⟨row, hf, hname, hcontent, hdate⟩ := hrow
  have hstale : Database.page_needs_update cfg t2 row.datetime = false := by
    unfold Database.page_needs_update
    rw [hdate]
    have hle : (t2 - t1).emod 86400 ≤ cfg.DB_PAGE_EXPIRATION_TIME :=
      le_trans (emod_day_le h0) hw
    simp [not_lt.mpr hle]
  unfold Database.load_page
  rw [hu]
  simp only [Bool.true_eq_false, if_false]
  rw [hf]
  simp only [List.head?_cons]
  rw [hstale]
  simp [hname, hcontent]

/-- Witness for C7: save at time 10, load at time 50 with a 100 s window. -/
theorem C7_round_trip_witness :
    (Database.load_page ⟨true, true, true, 100⟩ 50 "T"
        (Database.save_page ⟨true, true, true, 100⟩ 10 ⟨"body", "T"⟩ ⟨[], [], 1, 1⟩)).1
      = some ⟨"body", "T"⟩ :=
  C7_round_trip ⟨true, true, true, 100⟩ ⟨[], [], 1, 1⟩ ⟨"body", "T"⟩ 10 50
    rfl rfl (by decide) (by decide) (by decide)

/-- C10: a successful no-limit `get_saved_pages` yields only `(id, name,
datetime)` projections of stored rows — never content; with a positive limit
the call fails, so no tuple at all (in particular none carrying content) is
returned; and the stored content is what `load_page` hands back. -/
theorem C10_listings_carry_no_content (db : Store) :
    (∀ res, Database.get_saved_pages db none = .ok (some res) →
      ∀ t ∈ res, ∃ r ∈ db.pages, t = (r.id, r.name, r.datetime)) ∧
    (∀ l : Int, 0 < l →
      Database.get_saved_pages db (some l) = .error .operationalError) ∧
    (∀ (cfg : Config) (now : Int) (nm : String) (w : WikiParser),
      (Database.load_page cfg now nm db).1 = some w →
      ∃ r ∈ db.pages, w.page_text = r.content ∧ w.page_title = r.name) := by
  refine ⟨?_, ?_, ?_⟩
  · intro res hres t ht
    have hres' : res =
        (sortLe (fun a b => a.id ≤ b.id) db.pages).map fun p => (p.id, p.name, p.datetime) := by
      simp only [Database.get_saved_pages, pyListEqNone, Bool.false_eq_true, if_false,
        Except.ok.injEq, Option.some.injEq] at hres
      exact hres.symm
    rw [hres'] at ht
    simp only [List.mem_map] at ht
    obtain ⟨p, hp, hpt⟩ := ht
    exact ⟨p, mem_sortLe.mp hp, hpt.symm⟩
  · intro l hl
    simp [Database.get_saved_pages, not_le.mpr hl]
  · intro cfg now nm w hw
    unfold Database.load_page at hw
    by_cases hcfg : cfg.DB_USE_SAVED_PAGES = false
    · rw [if_pos hcfg] at hw
      simp at hw
    · rw [if_neg hcfg] at hw
      cases hfl : db.pages.filter (fun p => p.name = nm) with
      | nil =>
        rw [hfl] at hw
        simp at hw
      | cons a tl =>
        rw [hfl] at hw
        simp only [List.head?_cons] at hw
        by_cases hupd : Database.page_needs_update cfg now a.datetime = true
        · rw [if_pos hupd] at hw
          simp at hw
        · rw [if_neg hupd] at hw
          simp only [Option.some.injEq] at hw
          have ha : a ∈ db.pages := by
            have hmem : a ∈ db.pages.filter (fun p => p.name = nm) := by
              rw [hfl]
              exact List.mem_cons_self a tl
            exact (List.mem_filter.mp hmem).1
          exact ⟨a, ha, by rw [← hw], by rw [← hw]⟩

/-- Witness for C10: a limited pages listing on a one-page store fails, so it
returns no tuples. -/
theorem C10_listings_witness :
    Database.get_saved_pages ⟨[⟨1, "A", "a", 0⟩], [], 2, 1⟩ (some 1)
      = .error .operationalError :=
  (C10_listings_carry_no_content ⟨[⟨1, "A", "a", 0⟩], [], 2, 1⟩).2.1 1 (by decide)

end WiktionaryCli
